import Mathlib

/-!
Shallow embedding of the hyli-registry server core (src/server/src/registry.rs and
src/server/src/storage/) in Lean 4, together with proofs of the specification
claims about it.

Modelling conventions:
* Rust `HashMap<String, V>` is modelled as an association list `List (String × V)`
  with `alookup` / `ainsert` / `aremove` mirroring `get` / `insert` / `remove`.
* Byte strings (`Bytes`, `Vec<u8>`) are `List Nat`.
* The storage backend is modelled as a key-value store of `ObjVal` values; JSON
  serialization through serde_json is abstracted by the `ObjVal` constructors:
  `ObjVal.entryJson e` is the serialization of a `ProgramEntry`, `ObjVal.indexJson ix`
  the serialization of an `IndexFile`, and `ObjVal.raw bs` stands for raw binary
  payloads as well as any byte content that does not parse as the expected JSON shape.
* Backend I/O failures are injected through explicit fault lists on the backend
  state (`failWrite`, `failRead`, `failDelete`): an operation on a key in the
  corresponding list returns the error the real backend would propagate.
* `async` and the tokio `RwLock`s disappear in the sequential model: each service
  operation is a function from the service state to (new state, result).
* `Utc::now()` is a clock input: `upload` takes the timestamp as a parameter.
* Prometheus metrics are pure side channels with no influence on any result and
  are omitted.
-/

namespace HyliRegistry

/-- Byte strings (`bytes::Bytes`, `Vec<u8>`). -/
abbrev Bytes := List Nat

/-- `ProgramMetadata` from src/server/src/registry.rs. -/
structure ProgramMetadata where
  toolchain : String
  commit : String
  zkvm : String
deriving DecidableEq

/-- `ProgramEntry` from src/server/src/registry.rs. `size_bytes` is a `u64` in the
source; the value stored is `bytes.len() as u64`, which cannot overflow, so it is
a `Nat` here. -/
structure ProgramEntry where
  program_id : String
  contract : String
  object_path : String
  metadata_path : String
  size_bytes : Nat
  uploaded_at : String
  metadata : ProgramMetadata
deriving DecidableEq

/-- `ContractIndex` from src/server/src/registry.rs: `programs: HashMap<String, ProgramEntry>`. -/
structure ContractIndex where
  programs : List (String × ProgramEntry)
deriving DecidableEq

/-- `IndexFile` from src/server/src/registry.rs: `contracts: HashMap<String, ContractIndex>`. -/
structure IndexFile where
  contracts : List (String × ContractIndex)
deriving DecidableEq

/-- The content of one stored backend object. Serde serialization is abstracted:
a value written by `serde_json::to_vec` on a `ProgramEntry` (resp. `IndexFile`)
is `entryJson` (resp. `indexJson`); `raw` covers binary payloads and any bytes
that do not deserialize to the expected type. -/
inductive ObjVal where
  | raw (bs : Bytes)
  | entryJson (e : ProgramEntry)
  | indexJson (ix : IndexFile)
deriving DecidableEq

/-- `HashMap::get`. -/
def alookup {α : Type} : List (String × α) → String → Option α
  | [], _ => none
  | (k, v) :: rest, key => if k = key then some v else alookup rest key

/-- `HashMap::insert` (replaces the binding for an existing key). -/
def ainsert {α : Type} (key : String) (value : α) : List (String × α) → List (String × α)
  | [] => [(key, value)]
  | (k, v) :: rest =>
      if k = key then (key, value) :: rest else (k, v) :: ainsert key value rest

/-- `HashMap::remove` (drops every binding for the key). -/
def aremove {α : Type} (key : String) (l : List (String × α)) : List (String × α) :=
  l.filter (fun kv => kv.1 != key)

/-- `INDEX_FILE_NAME` from src/server/src/registry.rs. -/
def INDEX_FILE_NAME : String := "index.json"

/-- Stand-in for `program_id_digest` (src/server/src/registry.rs), which computes
the SHA-256 hex digest of the program id through the external `sha2` crate. The
registry core uses the digest only as a deterministic key encoder made of hex
characters (so it contains neither `/` nor `.`); the hash itself is not
re-implemented. This stand-in encodes each character's code point in decimal
separated by `x`, which is likewise deterministic, injective, and free of `/`
and `.`; no claim below depends on concrete digest values. -/
def program_id_digest (program_id : String) : String :=
  String.join (program_id.toList.map (fun c => toString c.toNat ++ "x"))

/-- `binary_object_path` from src/server/src/registry.rs:
`format!("{}/{}.elf", contract, digest)`. -/
def binary_object_path (contract program_id : String) : String :=
  contract ++ "/" ++ program_id_digest program_id ++ ".elf"

/-- `metadata_object_path` from src/server/src/registry.rs:
`format!("{}/{}.json", contract, digest)`. -/
def metadata_object_path (contract program_id : String) : String :=
  contract ++ "/" ++ program_id_digest program_id ++ ".json"

/-- `str::ends_with` used by `load_or_rebuild_index`. -/
def ends_with (s post : String) : Bool :=
  post.data.isSuffixOf s.data

/-- `serde_json::from_slice::<ProgramEntry>`: succeeds exactly on the
serialization of a `ProgramEntry`; any other content is a parse error (modelled
by `none`). -/
def parseEntry : ObjVal → Option ProgramEntry
  | ObjVal.entryJson e => some e
  | _ => none

/-- `serde_json::from_slice::<IndexFile>`: succeeds exactly on the serialization
of an `IndexFile`. -/
def parseIndex : ObjVal → Option IndexFile
  | ObjVal.indexJson ix => some ix
  | _ => none

/-- The state of a `StorageBackend` (src/server/src/storage/mod.rs) as seen by the
registry core: a key-value store of objects, plus fault-injection lists that
model the backend I/O errors an operation may propagate (a key listed in
`failWrite` / `failRead` / `failDelete` makes the corresponding operation
return an error, as a network or filesystem failure would). -/
structure Backend where
  store : List (String × ObjVal)
  failWrite : List String
  failRead : List String
  failDelete : List String
deriving DecidableEq

/-- `read_object`: `Ok(None)` signals absence; other failures are errors. -/
def Backend.readObject (b : Backend) (key : String) : Except String (Option ObjVal) :=
  if key ∈ b.failRead then Except.error key else Except.ok (alookup b.store key)

/-- `write_object`: creates or overwrites the object at `key`. -/
def Backend.writeObject (b : Backend) (key : String) (v : ObjVal) : Except String Backend :=
  if key ∈ b.failWrite then Except.error key
  else Except.ok { b with store := ainsert key v b.store }

/-- `delete_object` as used by the registry core (idempotent at the trait level;
the per-backend implementations are modelled separately below for claim C3). -/
def Backend.deleteObject (b : Backend) (key : String) : Except String Backend :=
  if key ∈ b.failDelete then Except.error key
  else Except.ok { b with store := aremove key b.store }

/-- `list_objects(None)`: every key in the store. -/
def Backend.listObjects (b : Backend) : List String :=
  b.store.map Prod.fst

/-- `CacheEntry` from src/server/src/registry.rs. -/
structure CacheEntry where
  program_id : String
  bytes : ObjVal
deriving DecidableEq

/-- `BinaryCache` from src/server/src/registry.rs:
`per_contract: HashMap<String, VecDeque<CacheEntry>>` (deque front = list head). -/
structure BinaryCache where
  per_contract : List (String × List CacheEntry)
deriving DecidableEq

/-- `BinaryCache::get_and_touch`: on a hit the entry moves to the front and its
bytes are returned; on a miss the cache is unchanged. -/
def BinaryCache.get_and_touch (cache : BinaryCache) (contract program_id : String) :
    Option ObjVal × BinaryCache :=
  match alookup cache.per_contract contract with
  | none => (none, cache)
  | some entries =>
    match entries.find? (fun e => e.program_id == program_id) with
    | none => (none, cache)
    | some entry =>
      let entries := entry :: entries.eraseP (fun e => e.program_id == program_id)
      (some entry.bytes, BinaryCache.mk (ainsert contract entries cache.per_contract))

/-- `BinaryCache::insert`: drop any entry for the pair, push the new entry to the
front, then pop from the back while the list holds more than 2 entries. -/
def BinaryCache.insert (cache : BinaryCache) (contract program_id : String)
    (bytes : ObjVal) : BinaryCache :=
  let entries := (alookup cache.per_contract contract).getD []
  let entries := entries.filter (fun e => e.program_id != program_id)
  let entries := CacheEntry.mk program_id bytes :: entries
  let entries := entries.take 2
  BinaryCache.mk (ainsert contract entries cache.per_contract)

/-- `BinaryCache::remove_program`. -/
def BinaryCache.remove_program (cache : BinaryCache) (contract program_id : String) :
    BinaryCache :=
  match alookup cache.per_contract contract with
  | none => cache
  | some entries =>
    let entries := entries.filter (fun e => e.program_id != program_id)
    if entries.isEmpty then BinaryCache.mk (aremove contract cache.per_contract)
    else BinaryCache.mk (ainsert contract entries cache.per_contract)

/-- `BinaryCache::remove_contract`. -/
def BinaryCache.remove_contract (cache : BinaryCache) (contract : String) : BinaryCache :=
  BinaryCache.mk (aremove contract cache.per_contract)

/-- `RegistryService` state: backend, in-memory index, binary cache. -/
structure RegistryService where
  storage : Backend
  index : IndexFile
  cache : BinaryCache
deriving DecidableEq

/-- `index.contracts.get(contract).and_then(|ce| ce.programs.get(program_id))`,
the lookup pattern used by `download` and `delete_program`. -/
def IndexFile.lookupEntry (ix : IndexFile) (contract program_id : String) :
    Option ProgramEntry :=
  (alookup ix.contracts contract).bind (fun ce => alookup ce.programs program_id)

/-- `RegistryService::upload` (src/server/src/registry.rs, lines 130-204).
`uploaded_at` is the `Utc::now().to_rfc3339()` clock input. The function returns
the service state as mutated up to the point of return together with the
result, mirroring the in-place mutation of the Rust service. -/
def RegistryService.upload (s : RegistryService) (contract program_id : String)
    (metadata : ProgramMetadata) (bytes : Bytes) (uploaded_at : String) :
    RegistryService × Except String ProgramEntry :=
  let object_path := binary_object_path contract program_id
  let metadata_path := metadata_object_path contract program_id
  let size_bytes := bytes.length
  match s.storage.writeObject object_path (ObjVal.raw bytes) with
  | Except.error e => (s, Except.error e)
  | Except.ok st1 =>
    let entry : ProgramEntry :=
      { program_id := program_id, contract := contract, object_path := object_path,
        metadata_path := metadata_path, size_bytes := size_bytes,
        uploaded_at := uploaded_at, metadata := metadata }
    match st1.writeObject metadata_path (ObjVal.entryJson entry) with
    | Except.error e => ({ s with storage := st1 }, Except.error e)
    | Except.ok st2 =>
      let contract_entry := (alookup s.index.contracts contract).getD (ContractIndex.mk [])
      let index' := IndexFile.mk (ainsert contract
        (ContractIndex.mk (ainsert program_id entry contract_entry.programs))
        s.index.contracts)
      match st2.writeObject INDEX_FILE_NAME (ObjVal.indexJson index') with
      | Except.error e => ({ s with storage := st2, index := index' }, Except.error e)
      | Except.ok st3 =>
        ({ storage := st3, index := index',
           cache := s.cache.insert contract program_id (ObjVal.raw bytes) },
         Except.ok entry)

/-- `RegistryService::download` (src/server/src/registry.rs, lines 207-254). -/
def RegistryService.download (s : RegistryService) (contract program_id : String) :
    RegistryService × Except String (Option ObjVal) :=
  match BinaryCache.get_and_touch s.cache contract program_id with
  | (some bytes, cache') => ({ s with cache := cache' }, Except.ok (some bytes))
  | (none, cache') =>
    let s1 := { s with cache := cache' }
    match s1.index.lookupEntry contract program_id with
    | none => (s1, Except.ok none)
    | some entry =>
      match s1.storage.readObject entry.object_path with
      | Except.error e => (s1, Except.error e)
      | Except.ok none => (s1, Except.ok none)
      | Except.ok (some v) =>
        ({ s1 with cache := s1.cache.insert contract program_id v },
         Except.ok (some v))

/-- The in-memory index update of `delete_program`: under the write lock, the
entry is removed from the contract's program map, and the contract key itself is
removed when its program map becomes empty. -/
def deleteIndex (ix : IndexFile) (contract program_id : String) : IndexFile :=
  match alookup ix.contracts contract with
  | none => ix
  | some contract_entry =>
    let programs' := aremove program_id contract_entry.programs
    if programs'.isEmpty then IndexFile.mk (aremove contract ix.contracts)
    else IndexFile.mk (ainsert contract (ContractIndex.mk programs') ix.contracts)

/-- `RegistryService::delete_program` (src/server/src/registry.rs, lines 257-305). -/
def RegistryService.delete_program (s : RegistryService) (contract program_id : String) :
    RegistryService × Except String Bool :=
  match s.index.lookupEntry contract program_id with
  | none => (s, Except.ok false)
  | some entry =>
    match s.storage.deleteObject entry.object_path with
    | Except.error e => (s, Except.error e)
    | Except.ok st1 =>
      match st1.deleteObject entry.metadata_path with
      | Except.error e => ({ s with storage := st1 }, Except.error e)
      | Except.ok st2 =>
        let index' := deleteIndex s.index contract program_id
        match st2.writeObject INDEX_FILE_NAME (ObjVal.indexJson index') with
        | Except.error e => ({ s with storage := st2, index := index' }, Except.error e)
        | Except.ok st3 =>
          ({ storage := st3, index := index',
             cache := s.cache.remove_program contract program_id },
           Except.ok true)

/-- The per-entry deletion loop of `RegistryService::delete_contract`: deletes
the binary then the metadata object of each entry, stopping at the first error. -/
def deleteEntriesLoop (b : Backend) : List ProgramEntry → Backend × Except String Unit
  | [] => (b, Except.ok ())
  | entry :: rest =>
    match b.deleteObject entry.object_path with
    | Except.error e => (b, Except.error e)
    | Except.ok b1 =>
      match b1.deleteObject entry.metadata_path with
      | Except.error e => (b1, Except.error e)
      | Except.ok b2 => deleteEntriesLoop b2 rest

/-- `RegistryService::delete_contract` (src/server/src/registry.rs, lines 308-352). -/
def RegistryService.delete_contract (s : RegistryService) (contract : String) :
    RegistryService × Except String Bool :=
  match alookup s.index.contracts contract with
  | none => (s, Except.ok false)
  | some contract_entry =>
    match deleteEntriesLoop s.storage (contract_entry.programs.map Prod.snd) with
    | (st1, Except.error e) => ({ s with storage := st1 }, Except.error e)
    | (st1, Except.ok ()) =>
      let index' := IndexFile.mk (aremove contract s.index.contracts)
      match st1.writeObject INDEX_FILE_NAME (ObjVal.indexJson index') with
      | Except.error e => ({ s with storage := st1, index := index' }, Except.error e)
      | Except.ok st2 =>
        ({ storage := st2, index := index',
           cache := s.cache.remove_contract contract },
         Except.ok true)

/-- One index insertion of the rebuild scan: the parsed entry is filed under its
embedded `contract` and `program_id` fields. -/
def insertEntry (ix : IndexFile) (entry : ProgramEntry) : IndexFile :=
  let ce := (alookup ix.contracts entry.contract).getD (ContractIndex.mk [])
  IndexFile.mk (ainsert entry.contract
    (ContractIndex.mk (ainsert entry.program_id entry ce.programs)) ix.contracts)

/-- The object scan of the rebuild path of `load_or_rebuild_index`
(src/server/src/registry.rs, lines 516-538): skip the index key and keys that do
not end in `.json`; skip objects that vanished; skip objects whose content does
not parse as a `ProgramEntry`; group surviving entries by their embedded
`contract` field. A read error aborts the scan (the `?` in the source). -/
def rebuildLoop (storage : Backend) (index : IndexFile) :
    List String → Except String IndexFile
  | [] => Except.ok index
  | object :: rest =>
    if object == INDEX_FILE_NAME || !(ends_with object ".json") then
      rebuildLoop storage index rest
    else
      match storage.readObject object with
      | Except.error e => Except.error e
      | Except.ok none => rebuildLoop storage index rest
      | Except.ok (some v) =>
        match parseEntry v with
        | none => rebuildLoop storage index rest
        | some entry => rebuildLoop storage (insertEntry index entry) rest

/-- The rebuild path of `load_or_rebuild_index`: list every object, scan, then
persist the rebuilt index back to the backend before returning. -/
def rebuildIndex (storage : Backend) : Except String (IndexFile × Backend) :=
  match rebuildLoop storage (IndexFile.mk []) storage.listObjects with
  | Except.error e => Except.error e
  | Except.ok index =>
    match storage.writeObject INDEX_FILE_NAME (ObjVal.indexJson index) with
    | Except.error e => Except.error e
    | Except.ok storage' => Except.ok (index, storage')

/-- `load_or_rebuild_index` (src/server/src/registry.rs, lines 507-547): if the
index object is present it must parse (parse failure is a construction error);
if it is absent the index is rebuilt. Returns the index together with the
backend state (the rebuild path writes the rebuilt index back). -/
def load_or_rebuild_index (storage : Backend) : Except String (IndexFile × Backend) :=
  match storage.readObject INDEX_FILE_NAME with
  | Except.error e => Except.error e
  | Except.ok (some v) =>
    match parseIndex v with
    | some index => Except.ok (index, storage)
    | none => Except.error "parsing index"
  | Except.ok none => rebuildIndex storage

/-- The `ProgramEntry` value that `upload contract program_id metadata bytes
uploaded_at` constructs. -/
def uploadEntry (contract program_id : String) (metadata : ProgramMetadata)
    (bytes : Bytes) (uploaded_at : String) : ProgramEntry :=
  { program_id := program_id, contract := contract,
    object_path := binary_object_path contract program_id,
    metadata_path := metadata_object_path contract program_id,
    size_bytes := bytes.length, uploaded_at := uploaded_at, metadata := metadata }

/-- The in-memory index after `upload` has inserted `entry` under
(`contract`, `program_id`). -/
def uploadIndex (s : RegistryService) (contract program_id : String)
    (entry : ProgramEntry) : IndexFile :=
  IndexFile.mk (ainsert contract
    (ContractIndex.mk (ainsert program_id entry
      ((alookup s.index.contracts contract).getD (ContractIndex.mk [])).programs))
    s.index.contracts)

/-- The full service state after a successful `upload`. -/
def uploadState (s : RegistryService) (contract program_id : String)
    (metadata : ProgramMetadata) (bytes : Bytes) (uploaded_at : String) :
    RegistryService :=
  let entry := uploadEntry contract program_id metadata bytes uploaded_at
  let ix := uploadIndex s contract program_id entry
  let store' :=
    ainsert INDEX_FILE_NAME (ObjVal.indexJson ix)
      (ainsert (metadata_object_path contract program_id) (ObjVal.entryJson entry)
        (ainsert (binary_object_path contract program_id) (ObjVal.raw bytes)
          s.storage.store))
  { storage := { s.storage with store := store' },
    index := ix,
    cache := s.cache.insert contract program_id (ObjVal.raw bytes) }

/-- The service state after an `upload` whose index write failed: the binary and
metadata objects are written, the in-memory index carries the new entry, the
cache is untouched. -/
def uploadIndexWriteFailState (s : RegistryService) (contract program_id : String)
    (metadata : ProgramMetadata) (bytes : Bytes) (uploaded_at : String) :
    RegistryService :=
  let entry := uploadEntry contract program_id metadata bytes uploaded_at
  let store' :=
    ainsert (metadata_object_path contract program_id) (ObjVal.entryJson entry)
      (ainsert (binary_object_path contract program_id) (ObjVal.raw bytes)
        s.storage.store)
  { storage := { s.storage with store := store' },
    index := uploadIndex s contract program_id entry,
    cache := s.cache }

/-- The service state after a successful `delete_program` of the entry `e`. -/
def deleteProgramState (s : RegistryService) (c p : String) (e : ProgramEntry) :
    RegistryService :=
  let ix := deleteIndex s.index c p
  let store' :=
    ainsert INDEX_FILE_NAME (ObjVal.indexJson ix)
      (aremove e.metadata_path (aremove e.object_path s.storage.store))
  { storage := { s.storage with store := store' }, index := ix,
    cache := s.cache.remove_program c p }

/-- The invariant of §3 of the spec: no contract key of the in-memory index maps
to an empty program map. -/
def noEmptyContracts (ix : IndexFile) : Prop :=
  ∀ kv ∈ ix.contracts, kv.2.programs ≠ []

/-- An index file that maps contract `"c"` to an empty program map, as an
out-of-band writer could persist it. -/
def c9EmptyContract : IndexFile := IndexFile.mk [("c", ContractIndex.mk [])]

/-- A backend whose stored `index.json` is `c9EmptyContract`. -/
def c9Backend : Backend :=
  Backend.mk [(INDEX_FILE_NAME, ObjVal.indexJson c9EmptyContract)] [] [] []

/-- The error type of the external Google Cloud Storage client
(`google_cloud_storage::http::Error`), reduced to what `is_not_found` inspects:
an HTTP response code, or an HTTP client error with an optional status code. -/
inductive GcsError where
  | response (code : Nat)
  | httpClient (status : Option Nat)
deriving DecidableEq

/-- `GcsStorageBackend::is_not_found` (src/server/src/storage/gcs.rs, lines 51-54). -/
def gcs_is_not_found : GcsError → Bool
  | GcsError.response code => code == 404
  | GcsError.httpClient status => status == some 404

/-- The GCS backend state: the bucket contents plus the configured key prefix
(the `prefix` field of the Rust struct, called `pfx` here). -/
structure GcsStorageBackend where
  bucket : List (String × Bytes)
  pfx : Option String
deriving DecidableEq

/-- `str::trim_end_matches('/')`. -/
def trim_end_slashes (s : String) : String :=
  String.mk (List.reverse (s.data.reverse.dropWhile (fun ch => ch == '/')))

/-- `GcsStorageBackend::object_path` (src/server/src/storage/gcs.rs, lines 31-38). -/
def GcsStorageBackend.gcs_object_path (g : GcsStorageBackend) (object : String) :
    String :=
  match g.pfx with
  | some pre => if pre.isEmpty then object else trim_end_slashes pre ++ "/" ++ object
  | none => object

/-- Modelled from the documented Cloud Storage API (external to this repository):
deleting an existing object removes it and succeeds; deleting an absent object
yields an HTTP 404 response error. -/
def gcsClientDeleteObject (bucket : List (String × Bytes)) (object : String) :
    Except GcsError Unit × List (String × Bytes) :=
  match alookup bucket object with
  | some _ => (Except.ok (), aremove object bucket)
  | none => (Except.error (GcsError.response 404), bucket)

/-- `GcsStorageBackend::delete_object` (src/server/src/storage/gcs.rs, lines
137-151): a 404 from the client is caught by `is_not_found` and treated as
success, all other errors propagate. -/
def GcsStorageBackend.delete_object (g : GcsStorageBackend) (path : String) :
    Except GcsError Unit × GcsStorageBackend :=
  let object := g.gcs_object_path path
  match gcsClientDeleteObject g.bucket object with
  | (Except.ok _, bucket') => (Except.ok (), GcsStorageBackend.mk bucket' g.pfx)
  | (Except.error err, bucket') =>
      if gcs_is_not_found err then (Except.ok (), GcsStorageBackend.mk bucket' g.pfx)
      else (Except.error err, GcsStorageBackend.mk bucket' g.pfx)

/-- The filesystem error kinds the local backend distinguishes
(`std::io::ErrorKind`). -/
inductive IoError where
  | notFound
  | other (msg : String)
deriving DecidableEq

/-- The filesystem under the backend root as a map from root-relative paths to
file contents; `tokio::fs::remove_file` removes the file, or fails with
`NotFound` when there is none. -/
def fsRemoveFile (fs : List (String × Bytes)) (path : String) :
    Except IoError Unit × List (String × Bytes) :=
  match alookup fs path with
  | some _ => (Except.ok (), aremove path fs)
  | none => (Except.error IoError.notFound, fs)

/-- Modelled from the spec: the `delete_object` implementation of
`LocalStorageBackend` is declared by the `StorageBackend` trait
(src/server/src/storage/mod.rs, line 16) but missing from the trait impl in
src/server/src/storage/local.rs in the sources at hand. Per spec §4.1 it
removes the object and deleting a non-existent object is not an error; the
`NotFound` match mirrors the error handling style of `read_object` in the same
impl. -/
def LocalStorageBackend.delete_object (fs : List (String × Bytes)) (path : String) :
    Except IoError Unit × List (String × Bytes) :=
  match fsRemoveFile fs path with
  | (Except.ok _, fs') => (Except.ok (), fs')
  | (Except.error IoError.notFound, fs') => (Except.ok (), fs')
  | (Except.error e, fs') => (Except.error e, fs')

deriving instance DecidableEq for Except

def wMeta : ProgramMetadata := ProgramMetadata.mk "toolchain-v1" "abc123" "sp1"

def wMeta2 : ProgramMetadata := ProgramMetadata.mk "toolchain-v2" "def456" "sp1"

def wBackend : Backend := Backend.mk [] [] [] []

def wService : RegistryService :=
  RegistryService.mk wBackend (IndexFile.mk []) (BinaryCache.mk [])

def wS1 : RegistryService :=
  (wService.upload "orders" "program-a" wMeta [1, 2, 3] "t1").1

def wE1 : ProgramEntry := uploadEntry "orders" "program-a" wMeta [1, 2, 3] "t1"

def wS2 : RegistryService := (wS1.upload "orders" "program-a" wMeta2 [9, 9] "t2").1

def wE2 : ProgramEntry := uploadEntry "orders" "program-a" wMeta2 [9, 9] "t2"

def w7S1 : RegistryService := (wService.upload "orders" "p1" wMeta [1] "t1").1

def w7S2 : RegistryService := (w7S1.upload "orders" "p2" wMeta [2] "t2").1

def w7S3 : RegistryService := (w7S2.upload "orders" "p3" wMeta [3] "t3").1

def wFailBackend : Backend := Backend.mk [] [INDEX_FILE_NAME] [] []

def wFailService : RegistryService :=
  RegistryService.mk wFailBackend (IndexFile.mk []) (BinaryCache.mk [])

def w8Service : RegistryService :=
  RegistryService.mk wBackend
    (IndexFile.mk [("orders", ContractIndex.mk [("p", wE1)])]) (BinaryCache.mk [])

def w2Backend : Backend :=
  Backend.mk [("orders/x.json", ObjVal.entryJson wE1),
    ("orders/bad.json", ObjVal.raw [0])] [] [] []

def w6Corrupt : Backend := Backend.mk [(INDEX_FILE_NAME, ObjVal.raw [1])] [] [] []

theorem alookup_ainsert_self {α : Type} (key : String) (value : α)
    (l : List (String × α)) : alookup (ainsert key value l) key = some value := by
  induction l with
  | nil => simp [ainsert, alookup]
  | cons kv rest ih =>
      obtain ⟨k, v⟩ := kv
      by_cases h : k = key
      · simp [ainsert, h, alookup]
      · simp [ainsert, h, alookup, ih]

theorem alookup_ainsert_ne {α : Type} (key key' : String) (value : α)
    (l : List (String × α)) (h : key' ≠ key) :
    alookup (ainsert key value l) key' = alookup l key' := by
  have h' : ¬ key = key' := fun hc => h hc.symm
  induction l with
  | nil => simp [ainsert, alookup, h']
  | cons kv rest ih =>
      obtain ⟨k, v⟩ := kv
      by_cases hk : k = key
      · subst hk
        simp [ainsert, alookup, h']
      · by_cases hk' : k = key'
        · subst hk'
          simp [ainsert, hk, alookup]
        · simp [ainsert, hk, alookup, hk', ih]

theorem alookup_aremove_self {α : Type} (key : String) (l : List (String × α)) :
    alookup (aremove key l) key = none := by
  induction l with
  | nil => simp [aremove, alookup]
  | cons kv rest ih =>
      obtain ⟨k, v⟩ := kv
      by_cases h : k = key
      · subst h
        simpa [aremove, List.filter_cons] using ih
      · have hb : (k != key) = true := bne_iff_ne.mpr h
        simpa [aremove, List.filter_cons, hb, alookup, h] using ih

theorem alookup_aremove_ne {α : Type} (key key' : String) (l : List (String × α))
    (h : key' ≠ key) : alookup (aremove key l) key' = alookup l key' := by
  have h' : ¬ key = key' := fun hc => h hc.symm
  induction l with
  | nil => simp [aremove, alookup]
  | cons kv rest ih =>
      obtain ⟨k, v⟩ := kv
      by_cases hk : k = key
      · subst hk
        simpa [aremove, List.filter_cons, alookup, h'] using ih
      · have hb : (k != key) = true := bne_iff_ne.mpr hk
        by_cases hk' : k = key'
        · subst hk'
          simp [aremove, List.filter_cons, hb, alookup]
        · simpa [aremove, List.filter_cons, hb, alookup, hk'] using ih

theorem mem_ainsert {α : Type} (key : String) (value : α) (l : List (String × α))
    (kv : String × α) (h : kv ∈ ainsert key value l) : kv = (key, value) ∨ kv ∈ l := by
  induction l with
  | nil =>
      simp only [ainsert, List.mem_singleton] at h
      exact Or.inl h
  | cons hd rest ih =>
      obtain ⟨k, v⟩ := hd
      by_cases hk : k = key
      · simp only [ainsert, if_pos hk] at h
        rcases List.mem_cons.mp h with h1 | h1
        · exact Or.inl h1
        · exact Or.inr (List.mem_cons_of_mem _ h1)
      · simp only [ainsert, if_neg hk] at h
        rcases List.mem_cons.mp h with h1 | h1
        · exact Or.inr (List.mem_cons.mpr (Or.inl h1))
        · rcases ih h1 with h2 | h2
          · exact Or.inl h2
          · exact Or.inr (List.mem_cons_of_mem _ h2)

theorem mem_aremove {α : Type} (key : String) (l : List (String × α))
    (kv : String × α) (h : kv ∈ aremove key l) : kv ∈ l :=
  List.mem_of_mem_filter h

theorem ainsert_ne_nil {α : Type} (key : String) (value : α)
    (l : List (String × α)) : ainsert key value l ≠ [] := by
  cases l with
  | nil => simp [ainsert]
  | cons hd rest =>
      obtain ⟨k, v⟩ := hd
      by_cases hk : k = key <;> simp [ainsert, hk]

theorem alookup_mem {α : Type} (l : List (String × α)) (key : String) (v : α)
    (h : alookup l key = some v) : (key, v) ∈ l := by
  induction l with
  | nil => simp [alookup] at h
  | cons hd rest ih =>
      obtain ⟨k, v'⟩ := hd
      by_cases hk : k = key
      · subst hk
        have h' : some v' = some v := by simpa [alookup] using h
        obtain rfl := Option.some.inj h'
        exact List.mem_cons_self _ _
      · simp only [alookup, if_neg hk] at h
        exact List.mem_cons_of_mem _ (ih h)

theorem append_ne_of_ne_suffix {α : Type} (u v s t : List α)
    (hlen : s.length = t.length) (hne : s ≠ t) : u ++ s ≠ v ++ t := by
  intro h
  apply hne
  have hrev : s.reverse ++ u.reverse = t.reverse ++ v.reverse := by
    simpa [List.reverse_append] using congrArg List.reverse h
  have h1 : (s.reverse ++ u.reverse).take s.reverse.length = s.reverse :=
    List.take_left _ _
  have h2 : (t.reverse ++ v.reverse).take t.reverse.length = t.reverse :=
    List.take_left _ _
  have hlen' : s.reverse.length = t.reverse.length := by simp [hlen]
  have hr : s.reverse = t.reverse := by rw [← h1, ← h2, hrev, hlen']
  simpa using congrArg List.reverse hr

theorem binary_object_path_data (c p : String) :
    (binary_object_path c p).data =
      (c.data ++ ['/'] ++ (program_id_digest p).data) ++ ['.', 'e', 'l', 'f'] := by
  simp [binary_object_path, String.data_append]

theorem metadata_object_path_data (c p : String) :
    (metadata_object_path c p).data =
      (c.data ++ ['/'] ++ (program_id_digest p).data) ++ ['.', 'j', 's', 'o', 'n'] := by
  simp [metadata_object_path, String.data_append]

theorem binary_object_path_ne_index (c p : String) :
    binary_object_path c p ≠ INDEX_FILE_NAME := by
  intro h
  have hd := congrArg String.data h
  rw [binary_object_path_data] at hd
  have hr : ("index.json" : String).data =
      ['i', 'n', 'd', 'e', 'x', '.'] ++ ['j', 's', 'o', 'n'] := rfl
  rw [INDEX_FILE_NAME, hr] at hd
  exact append_ne_of_ne_suffix _ _ _ _ (by decide) (by decide) hd

theorem binary_object_path_ne_metadata (c p c' p' : String) :
    binary_object_path c p ≠ metadata_object_path c' p' := by
  intro h
  have hd := congrArg String.data h
  rw [binary_object_path_data, metadata_object_path_data, show
      (c'.data ++ ['/'] ++ (program_id_digest p').data) ++ ['.', 'j', 's', 'o', 'n'] =
      ((c'.data ++ ['/'] ++ (program_id_digest p').data) ++ ['.']) ++ ['j', 's', 'o', 'n']
    by simp] at hd
  exact append_ne_of_ne_suffix _ _ _ _ (by decide) (by decide) hd

theorem metadata_object_path_ne_index (c p : String) :
    metadata_object_path c p ≠ INDEX_FILE_NAME := by
  intro h
  have hd := congrArg String.data h
  rw [metadata_object_path_data] at hd
  have hr : ("index.json" : String).data =
      ['i', 'n', 'd', 'e', 'x'] ++ ['.', 'j', 's', 'o', 'n'] := rfl
  rw [INDEX_FILE_NAME, hr] at hd
  have hstem : c.data ++ ['/'] ++ (program_id_digest p).data =
      ['i', 'n', 'd', 'e', 'x'] := List.append_cancel_right hd
  have hmem : '/' ∈ c.data ++ ['/'] ++ (program_id_digest p).data := by simp
  rw [hstem] at hmem
  simp at hmem

theorem get_and_touch_after_insert (cache : BinaryCache) (c p : String) (v : ObjVal) :
    ((cache.insert c p v).get_and_touch c p).1 = some v := by
  unfold BinaryCache.insert BinaryCache.get_and_touch
  rw [alookup_ainsert_self]
  have hfind : List.find? (fun e => e.program_id == p)
      ((CacheEntry.mk p v ::
        ((alookup cache.per_contract c).getD []).filter
          (fun e => e.program_id != p)).take 2) = some (CacheEntry.mk p v) := by
    rw [List.take_succ_cons]
    exact List.find?_cons_of_pos _ (by simp)
  simp [hfind]

theorem get_and_touch_miss_snd (cache : BinaryCache) (c p : String)
    (h : (cache.get_and_touch c p).1 = none) : (cache.get_and_touch c p).2 = cache := by
  unfold BinaryCache.get_and_touch at h ⊢
  cases hc : alookup cache.per_contract c with
  | none => rfl
  | some entries =>
    rw [hc] at h
    dsimp only at h ⊢
    cases hf : List.find? (fun e => e.program_id == p) entries with
    | none => rfl
    | some entry =>
      rw [hf] at h
      simp at h

theorem get_and_touch_remove_program (cache : BinaryCache) (c p : String) :
    ((cache.remove_program c p).get_and_touch c p).1 = none := by
  have hfind : ∀ entries : List CacheEntry,
      List.find? (fun e => e.program_id == p)
        (entries.filter (fun e => e.program_id != p)) = none := by
    intro entries
    rw [List.find?_eq_none]
    intro e he
    have h2 := (List.mem_filter.mp he).2
    simpa using h2
  unfold BinaryCache.remove_program
  rcases hc : alookup cache.per_contract c with _ | entries
  · simp [BinaryCache.get_and_touch, hc]
  · dsimp only
    by_cases he : (entries.filter (fun e => e.program_id != p)).isEmpty = true
    · rw [if_pos he]
      simp [BinaryCache.get_and_touch, alookup_aremove_self]
    · rw [if_neg he]
      simp [BinaryCache.get_and_touch, alookup_ainsert_self, hfind]

theorem upload_eq (s : RegistryService) (c p : String) (md : ProgramMetadata)
    (bytes : Bytes) (ts : String)
    (h1 : binary_object_path c p ∉ s.storage.failWrite)
    (h2 : metadata_object_path c p ∉ s.storage.failWrite)
    (h3 : INDEX_FILE_NAME ∉ s.storage.failWrite) :
    s.upload c p md bytes ts =
      (uploadState s c p md bytes ts, Except.ok (uploadEntry c p md bytes ts)) := by
  unfold RegistryService.upload Backend.writeObject uploadState uploadIndex uploadEntry
  simp [h1, h2, h3]

theorem upload_ok_dest (s : RegistryService) (c p : String) (md : ProgramMetadata)
    (bytes : Bytes) (ts : String) (s' : RegistryService) (e : ProgramEntry)
    (h : s.upload c p md bytes ts = (s', Except.ok e)) :
    s' = uploadState s c p md bytes ts ∧ e = uploadEntry c p md bytes ts := by
  by_cases h1 : binary_object_path c p ∈ s.storage.failWrite
  · unfold RegistryService.upload Backend.writeObject at h
    simp [h1] at h
  · by_cases h2 : metadata_object_path c p ∈ s.storage.failWrite
    · unfold RegistryService.upload Backend.writeObject at h
      simp [h1, h2] at h
    · by_cases h3 : INDEX_FILE_NAME ∈ s.storage.failWrite
      · unfold RegistryService.upload Backend.writeObject at h
        simp [h1, h2, h3] at h
      · rw [upload_eq s c p md bytes ts h1 h2 h3] at h
        rw [Prod.mk.injEq] at h
        exact ⟨h.1.symm, Except.ok.inj h.2 |>.symm⟩

theorem insert_lookup_self (cache : BinaryCache) (c p : String) (v : ObjVal) :
    alookup (cache.insert c p v).per_contract c =
      some ((CacheEntry.mk p v ::
        ((alookup cache.per_contract c).getD []).filter
          (fun e => e.program_id != p)).take 2) := by
  unfold BinaryCache.insert
  exact alookup_ainsert_self _ _ _

theorem insert_lookup_length (cache : BinaryCache) (c p : String) (v : ObjVal)
    (es : List CacheEntry)
    (h : alookup (cache.insert c p v).per_contract c = some es) : es.length ≤ 2 := by
  rw [insert_lookup_self] at h
  obtain rfl := Option.some.inj h
  exact le_trans (List.length_take_le _ _) (by norm_num)

theorem cache_insert_three (cache : BinaryCache) (c p1 p2 p3 : String)
    (v1 v2 v3 : ObjVal) (h12 : p1 ≠ p2) (h13 : p1 ≠ p3) (h23 : p2 ≠ p3) :
    alookup (((cache.insert c p1 v1).insert c p2 v2).insert c p3 v3).per_contract c =
      some [CacheEntry.mk p3 v3, CacheEntry.mk p2 v2] := by
  have hA := insert_lookup_self cache c p1 v1
  rw [List.take_succ_cons] at hA
  have hB := insert_lookup_self (cache.insert c p1 v1) c p2 v2
  rw [hA] at hB
  have hf1 : (fun e : CacheEntry => e.program_id != p2) (CacheEntry.mk p1 v1) = true := by
    simp [h12]
  rw [Option.getD_some,
    @List.filter_cons_of_pos CacheEntry (fun e => e.program_id != p2)
      (CacheEntry.mk p1 v1) _ hf1] at hB
  rw [List.take_succ_cons, List.take_succ_cons, List.take_zero] at hB
  have hC := insert_lookup_self ((cache.insert c p1 v1).insert c p2 v2) c p3 v3
  rw [hB, Option.getD_some] at hC
  have hf2 : (fun e : CacheEntry => e.program_id != p3) (CacheEntry.mk p2 v2) = true := by
    simp [h23]
  have hf3 : (fun e : CacheEntry => e.program_id != p3) (CacheEntry.mk p1 v1) = true := by
    simp [h13]
  rw [@List.filter_cons_of_pos CacheEntry (fun e => e.program_id != p3)
      (CacheEntry.mk p2 v2) _ hf2,
    @List.filter_cons_of_pos CacheEntry (fun e => e.program_id != p3)
      (CacheEntry.mk p1 v1) _ hf3,
    List.filter_nil] at hC
  rw [List.take_succ_cons, List.take_succ_cons, List.take_zero] at hC
  exact hC

theorem get_and_touch_of_lookup_pair (cache : BinaryCache) (c pa pb : String)
    (va vb : ObjVal) (hab : pa ≠ pb)
    (h : alookup cache.per_contract c = some [CacheEntry.mk pa va, CacheEntry.mk pb vb]) :
    ((cache.get_and_touch c pa).1 = some va ∧ (cache.get_and_touch c pb).1 = some vb) ∧
    (∀ q, q ≠ pa → q ≠ pb → (cache.get_and_touch c q).1 = none) := by
  have hab' : (pa == pb) = false := by simpa using hab
  unfold BinaryCache.get_and_touch
  rw [h]
  refine ⟨⟨?_, ?_⟩, ?_⟩
  · have hf : List.find? (fun e => e.program_id == pa)
        [CacheEntry.mk pa va, CacheEntry.mk pb vb] = some (CacheEntry.mk pa va) := by
      simp
    dsimp only
    rw [hf]
  · have hf : List.find? (fun e => e.program_id == pb)
        [CacheEntry.mk pa va, CacheEntry.mk pb vb] = some (CacheEntry.mk pb vb) := by
      simp [hab']
    dsimp only
    rw [hf]
  · intro q hqa hqb
    have haq : (pa == q) = false := by simpa using Ne.symm hqa
    have hbq : (pb == q) = false := by simpa using Ne.symm hqb
    have hf : List.find? (fun e => e.program_id == q)
        [CacheEntry.mk pa va, CacheEntry.mk pb vb] = none := by
      simp [haq, hbq]
    dsimp only
    rw [hf]

@[simp] theorem uploadEntry_object_path (c p : String) (md : ProgramMetadata)
    (b : Bytes) (t : String) :
    (uploadEntry c p md b t).object_path = binary_object_path c p := rfl

@[simp] theorem uploadEntry_metadata_path (c p : String) (md : ProgramMetadata)
    (b : Bytes) (t : String) :
    (uploadEntry c p md b t).metadata_path = metadata_object_path c p := rfl

@[simp] theorem uploadEntry_size_bytes (c p : String) (md : ProgramMetadata)
    (b : Bytes) (t : String) : (uploadEntry c p md b t).size_bytes = b.length := rfl

@[simp] theorem uploadEntry_metadata (c p : String) (md : ProgramMetadata)
    (b : Bytes) (t : String) : (uploadEntry c p md b t).metadata = md := rfl

@[simp] theorem uploadState_store (s : RegistryService) (c p : String)
    (md : ProgramMetadata) (b : Bytes) (t : String) :
    (uploadState s c p md b t).storage.store =
      ainsert INDEX_FILE_NAME
        (ObjVal.indexJson (uploadIndex s c p (uploadEntry c p md b t)))
        (ainsert (metadata_object_path c p) (ObjVal.entryJson (uploadEntry c p md b t))
          (ainsert (binary_object_path c p) (ObjVal.raw b) s.storage.store)) := rfl

@[simp] theorem uploadState_index (s : RegistryService) (c p : String)
    (md : ProgramMetadata) (b : Bytes) (t : String) :
    (uploadState s c p md b t).index = uploadIndex s c p (uploadEntry c p md b t) := rfl

@[simp] theorem uploadState_cache (s : RegistryService) (c p : String)
    (md : ProgramMetadata) (b : Bytes) (t : String) :
    (uploadState s c p md b t).cache = s.cache.insert c p (ObjVal.raw b) := rfl

@[simp] theorem uploadState_failWrite (s : RegistryService) (c p : String)
    (md : ProgramMetadata) (b : Bytes) (t : String) :
    (uploadState s c p md b t).storage.failWrite = s.storage.failWrite := rfl

theorem lookupEntry_uploadIndex_self (s : RegistryService) (c p : String)
    (e : ProgramEntry) : (uploadIndex s c p e).lookupEntry c p = some e := by
  unfold uploadIndex IndexFile.lookupEntry
  dsimp only
  rw [alookup_ainsert_self]
  dsimp only [Option.bind]
  exact alookup_ainsert_self _ _ _

theorem download_cache_hit (s : RegistryService) (c p : String) (v : ObjVal)
    (h : (s.cache.get_and_touch c p).1 = some v) :
    (s.download c p).2 = Except.ok (some v) := by
  unfold RegistryService.download
  rcases hgt : BinaryCache.get_and_touch s.cache c p with ⟨o, cc⟩
  rw [hgt] at h
  dsimp at h
  subst h
  rfl

/-- C1: for every contract, program id, metadata and byte string, a successful
`upload(contract, program_id, metadata, bytes)` followed by
`download(contract, program_id)` returns exactly those bytes, and the
`ProgramEntry` returned by `upload` has `size_bytes` equal to the length of
`bytes`. -/
theorem C1_upload_then_download (s s' : RegistryService) (contract program_id : String)
    (metadata : ProgramMetadata) (bytes : Bytes) (uploaded_at : String)
    (entry : ProgramEntry)
    (h : s.upload contract program_id metadata bytes uploaded_at =
      (s', Except.ok entry)) :
    entry.size_bytes = bytes.length ∧
    (s'.download contract program_id).2 = Except.ok (some (ObjVal.raw bytes)) := by
  obtain ⟨hs, he⟩ := upload_ok_dest _ _ _ _ _ _ _ _ h
  subst hs
  subst he
  refine ⟨rfl, ?_⟩
  apply download_cache_hit
  rw [uploadState_cache]
  exact get_and_touch_after_insert _ _ _ _

/-- C5: re-uploading the same (contract, program_id) targets the same
deterministic backend keys both times and replaces all stored content: the
binary object holds the new bytes, the stored metadata object and the index
entry carry only the latest metadata and size, and a subsequent download
returns the new bytes. -/
theorem C5_reupload_replaces_content (s s1 s2 : RegistryService)
    (contract program_id : String) (md1 md2 : ProgramMetadata) (b1 b2 : Bytes)
    (t1 t2 : String) (e1 e2 : ProgramEntry)
    (h1 : s.upload contract program_id md1 b1 t1 = (s1, Except.ok e1))
    (h2 : s1.upload contract program_id md2 b2 t2 = (s2, Except.ok e2)) :
    (e2.object_path = e1.object_path ∧ e2.metadata_path = e1.metadata_path) ∧
    alookup s2.storage.store e2.object_path = some (ObjVal.raw b2) ∧
    alookup s2.storage.store e2.metadata_path = some (ObjVal.entryJson e2) ∧
    e2.metadata = md2 ∧ e2.size_bytes = b2.length ∧
    s2.index.lookupEntry contract program_id = some e2 ∧
    (s2.download contract program_id).2 = Except.ok (some (ObjVal.raw b2)) := by
  obtain ⟨hs1, he1⟩ := upload_ok_dest _ _ _ _ _ _ _ _ h1
  obtain ⟨hs2, he2⟩ := upload_ok_dest _ _ _ _ _ _ _ _ h2
  subst hs1
  subst hs2
  subst he1
  subst he2
  refine ⟨⟨rfl, rfl⟩, ?_, ?_, rfl, rfl, ?_, ?_⟩
  · rw [uploadState_store, uploadEntry_object_path,
      alookup_ainsert_ne _ _ _ _ (binary_object_path_ne_index contract program_id),
      alookup_ainsert_ne _ _ _ _
        (binary_object_path_ne_metadata contract program_id contract program_id),
      alookup_ainsert_self]
  · rw [uploadState_store, uploadEntry_metadata_path,
      alookup_ainsert_ne _ _ _ _ (metadata_object_path_ne_index contract program_id),
      alookup_ainsert_self]
  · rw [uploadState_index]
    exact lookupEntry_uploadIndex_self _ _ _ _
  · apply download_cache_hit
    rw [uploadState_cache]
    exact get_and_touch_after_insert _ _ _ _

/-- C7: the binary cache enforces a fixed per-contract bound of 2, and after
three successful uploads of distinct program ids under one contract the
earliest-inserted entry is no longer cache-resident while the two most recent
are. -/
theorem C7_cache_bound_and_eviction (s0 s1 s2 s3 : RegistryService) (c : String)
    (p1 p2 p3 : String) (md1 md2 md3 : ProgramMetadata) (b1 b2 b3 : Bytes)
    (t1 t2 t3 : String) (e1 e2 e3 : ProgramEntry)
    (h12 : p1 ≠ p2) (h13 : p1 ≠ p3) (h23 : p2 ≠ p3)
    (h1 : s0.upload c p1 md1 b1 t1 = (s1, Except.ok e1))
    (h2 : s1.upload c p2 md2 b2 t2 = (s2, Except.ok e2))
    (h3 : s2.upload c p3 md3 b3 t3 = (s3, Except.ok e3)) :
    (∀ (cache : BinaryCache) (c' p' : String) (v' : ObjVal) (es : List CacheEntry),
      alookup (cache.insert c' p' v').per_contract c' = some es → es.length ≤ 2) ∧
    (s3.cache.get_and_touch c p1).1 = none ∧
    (s3.cache.get_and_touch c p2).1 = some (ObjVal.raw b2) ∧
    (s3.cache.get_and_touch c p3).1 = some (ObjVal.raw b3) := by
  obtain ⟨hs1, he1⟩ := upload_ok_dest _ _ _ _ _ _ _ _ h1
  obtain ⟨hs2, he2⟩ := upload_ok_dest _ _ _ _ _ _ _ _ h2
  obtain ⟨hs3, he3⟩ := upload_ok_dest _ _ _ _ _ _ _ _ h3
  subst hs1
  subst hs2
  subst hs3
  have hlk := cache_insert_three s0.cache c p1 p2 p3 (ObjVal.raw b1) (ObjVal.raw b2)
    (ObjVal.raw b3) h12 h13 h23
  have hgt := get_and_touch_of_lookup_pair _ c p3 p2 (ObjVal.raw b3) (ObjVal.raw b2)
    (Ne.symm h23) hlk
  refine ⟨fun cache c' p' v' es h => insert_lookup_length cache c' p' v' es h,
    ?_, ?_, ?_⟩
  · simp only [uploadState_cache]
    exact hgt.2 p1 h13 h12
  · simp only [uploadState_cache]
    exact hgt.1.2
  · simp only [uploadState_cache]
    exact hgt.1.1

theorem upload_index_write_fails (s : RegistryService) (c p : String)
    (md : ProgramMetadata) (bytes : Bytes) (ts : String)
    (h1 : binary_object_path c p ∉ s.storage.failWrite)
    (h2 : metadata_object_path c p ∉ s.storage.failWrite)
    (h3 : INDEX_FILE_NAME ∈ s.storage.failWrite) :
    s.upload c p md bytes ts =
      (uploadIndexWriteFailState s c p md bytes ts, Except.error INDEX_FILE_NAME) := by
  unfold RegistryService.upload Backend.writeObject uploadIndexWriteFailState
    uploadIndex uploadEntry
  simp [h1, h2, h3]

/-- C10: `upload` is not atomic in its error outcomes: when the backend write of
`index.json` fails, `upload` returns an error while the freshly inserted entry
remains in the in-memory index and the binary cache is left unpopulated. -/
theorem C10_failed_index_write_leaves_entry (s : RegistryService) (c p : String)
    (md : ProgramMetadata) (bytes : Bytes) (ts : String)
    (hfail : s.storage.failWrite = [INDEX_FILE_NAME]) :
    (s.upload c p md bytes ts).2 = Except.error INDEX_FILE_NAME ∧
    (s.upload c p md bytes ts).1.index.lookupEntry c p =
      some (uploadEntry c p md bytes ts) ∧
    (s.upload c p md bytes ts).1.cache = s.cache := by
  have h1 : binary_object_path c p ∉ s.storage.failWrite := by
    rw [hfail]
    simp [binary_object_path_ne_index c p]
  have h2 : metadata_object_path c p ∉ s.storage.failWrite := by
    rw [hfail]
    simp [metadata_object_path_ne_index c p]
  have h3 : INDEX_FILE_NAME ∈ s.storage.failWrite := by
    rw [hfail]
    simp
  rw [upload_index_write_fails s c p md bytes ts h1 h2 h3]
  exact ⟨rfl, lookupEntry_uploadIndex_self _ _ _ _, rfl⟩

theorem lookupEntry_eq_some (ix : IndexFile) (c p : String) (e : ProgramEntry)
    (h : ix.lookupEntry c p = some e) :
    ∃ ce, alookup ix.contracts c = some ce ∧ alookup ce.programs p = some e := by
  unfold IndexFile.lookupEntry at h
  cases hc : alookup ix.contracts c with
  | none => rw [hc] at h; simp at h
  | some ce =>
      rw [hc] at h
      exact ⟨ce, rfl, by simpa using h⟩

@[simp] theorem deleteProgramState_store (s : RegistryService) (c p : String)
    (e : ProgramEntry) :
    (deleteProgramState s c p e).storage.store =
      ainsert INDEX_FILE_NAME (ObjVal.indexJson (deleteIndex s.index c p))
        (aremove e.metadata_path (aremove e.object_path s.storage.store)) := rfl

@[simp] theorem deleteProgramState_index (s : RegistryService) (c p : String)
    (e : ProgramEntry) :
    (deleteProgramState s c p e).index = deleteIndex s.index c p := rfl

@[simp] theorem deleteProgramState_cache (s : RegistryService) (c p : String)
    (e : ProgramEntry) :
    (deleteProgramState s c p e).cache = s.cache.remove_program c p := rfl

@[simp] theorem deleteProgramState_failRead (s : RegistryService) (c p : String)
    (e : ProgramEntry) :
    (deleteProgramState s c p e).storage.failRead = s.storage.failRead := rfl

theorem delete_program_absent (s : RegistryService) (c p : String)
    (h : s.index.lookupEntry c p = none) :
    s.delete_program c p = (s, Except.ok false) := by
  unfold RegistryService.delete_program
  rw [h]

theorem delete_program_present_eq (s : RegistryService) (c p : String)
    (e : ProgramEntry) (he : s.index.lookupEntry c p = some e)
    (hd1 : e.object_path ∉ s.storage.failDelete)
    (hd2 : e.metadata_path ∉ s.storage.failDelete)
    (hw : INDEX_FILE_NAME ∉ s.storage.failWrite) :
    s.delete_program c p = (deleteProgramState s c p e, Except.ok true) := by
  unfold RegistryService.delete_program Backend.deleteObject Backend.writeObject
    deleteProgramState
  rw [he]
  simp [hd1, hd2, hw]

theorem deleteIndex_lookup (ix : IndexFile) (c p : String) (ce : ContractIndex)
    (hc : alookup ix.contracts c = some ce) :
    (deleteIndex ix c p).lookupEntry c p = none ∧
    ((aremove p ce.programs).isEmpty = true →
      alookup (deleteIndex ix c p).contracts c = none) ∧
    ((aremove p ce.programs).isEmpty = false →
      alookup (deleteIndex ix c p).contracts c =
        some (ContractIndex.mk (aremove p ce.programs))) := by
  unfold deleteIndex
  rw [hc]
  dsimp only
  by_cases hE : (aremove p ce.programs).isEmpty = true
  · rw [if_pos hE]
    refine ⟨?_, fun _ => ?_, fun hF => by rw [hE] at hF; cases hF⟩
    · unfold IndexFile.lookupEntry
      dsimp only
      rw [alookup_aremove_self]
      rfl
    · exact alookup_aremove_self _ _
  · rw [if_neg hE]
    have hlk : alookup (ainsert c (ContractIndex.mk (aremove p ce.programs))
        ix.contracts) c = some (ContractIndex.mk (aremove p ce.programs)) :=
      alookup_ainsert_self _ _ _
    refine ⟨?_, fun hT => absurd hT hE, fun _ => hlk⟩
    unfold IndexFile.lookupEntry
    dsimp only
    rw [hlk]
    dsimp only [Option.bind]
    exact alookup_aremove_self _ _

/-- C4: `delete_program` returns false and leaves everything unchanged when the
pair is absent; when the pair is present (with its canonical derived paths and a
healthy backend) it deletes both backend objects so later reads return absent,
removes the index entry (pruning the contract key if its program map becomes
empty), persists the index, drops the cache entry, and returns true. -/
theorem C4_delete_program_outcomes (s : RegistryService) (c p : String) :
    (s.index.lookupEntry c p = none → s.delete_program c p = (s, Except.ok false)) ∧
    (∀ e ce, s.index.lookupEntry c p = some e →
      alookup s.index.contracts c = some ce →
      e.object_path = binary_object_path c p →
      e.metadata_path = metadata_object_path c p →
      e.object_path ∉ s.storage.failDelete →
      e.metadata_path ∉ s.storage.failDelete →
      INDEX_FILE_NAME ∉ s.storage.failWrite →
      s.storage.failRead = [] →
      (s.delete_program c p).2 = Except.ok true ∧
      (s.delete_program c p).1.storage.readObject e.object_path = Except.ok none ∧
      (s.delete_program c p).1.storage.readObject e.metadata_path = Except.ok none ∧
      (s.delete_program c p).1.index.lookupEntry c p = none ∧
      ((aremove p ce.programs).isEmpty = true →
        alookup (s.delete_program c p).1.index.contracts c = none) ∧
      ((aremove p ce.programs).isEmpty = false →
        alookup (s.delete_program c p).1.index.contracts c =
          some (ContractIndex.mk (aremove p ce.programs))) ∧
      alookup (s.delete_program c p).1.storage.store INDEX_FILE_NAME =
        some (ObjVal.indexJson ((s.delete_program c p).1.index)) ∧
      ((s.delete_program c p).1.cache.get_and_touch c p).1 = none) := by
  refine ⟨delete_program_absent s c p, ?_⟩
  intro e ce he hce hop hmp hd1 hd2 hw hr
  rw [delete_program_present_eq s c p e he hd1 hd2 hw]
  obtain ⟨hlk, hprune1, hprune2⟩ := deleteIndex_lookup s.index c p ce hce
  have hopi : e.object_path ≠ INDEX_FILE_NAME := by
    rw [hop]; exact binary_object_path_ne_index c p
  have hmpi : e.metadata_path ≠ INDEX_FILE_NAME := by
    rw [hmp]; exact metadata_object_path_ne_index c p
  have hopm : e.object_path ≠ e.metadata_path := by
    rw [hop, hmp]; exact binary_object_path_ne_metadata c p c p
  refine ⟨rfl, ?_, ?_, hlk, hprune1, hprune2, ?_, ?_⟩
  · unfold Backend.readObject
    rw [deleteProgramState_failRead, hr]
    rw [deleteProgramState_store,
      alookup_ainsert_ne _ _ _ _ hopi,
      alookup_aremove_ne _ _ _ hopm,
      alookup_aremove_self]
    simp
  · unfold Backend.readObject
    rw [deleteProgramState_failRead, hr]
    rw [deleteProgramState_store,
      alookup_ainsert_ne _ _ _ _ hmpi,
      alookup_aremove_self]
    simp
  · rw [deleteProgramState_store, deleteProgramState_index, alookup_ainsert_self]
  · rw [deleteProgramState_cache]
    exact get_and_touch_remove_program _ _ _

/-- C8: `download` returns "not found" (`Ok(None)`), not an error, both when the
pair is absent from the index and when the index has an entry whose backend
object is missing; in both cases the service state (in particular the in-memory
index) is unchanged. The cache-miss hypothesis reflects that the cache never
holds a pair the index does not (uploads and cache-miss downloads only cache
indexed pairs, and deletions evict). -/
theorem C8_download_not_found (s : RegistryService) (c p : String)
    (hmiss : (s.cache.get_and_touch c p).1 = none) :
    (s.index.lookupEntry c p = none → s.download c p = (s, Except.ok none)) ∧
    (∀ e, s.index.lookupEntry c p = some e →
      s.storage.readObject e.object_path = Except.ok none →
      s.download c p = (s, Except.ok none)) := by
  have hsnd := get_and_touch_miss_snd s.cache c p hmiss
  have hpair : s.cache.get_and_touch c p = (none, s.cache) := Prod.ext hmiss hsnd
  unfold RegistryService.download
  rw [hpair]
  dsimp only
  constructor
  · intro h
    rw [h]
  · intro e he hread
    rw [he]
    dsimp only
    rw [hread]

theorem parseEntry_eq_some (v : ObjVal) (e : ProgramEntry)
    (h : parseEntry v = some e) : v = ObjVal.entryJson e := by
  cases v <;> simp_all [parseEntry]

theorem parseIndex_eq_some (v : ObjVal) (ix : IndexFile)
    (h : parseIndex v = some ix) : v = ObjVal.indexJson ix := by
  cases v <;> simp_all [parseIndex]

theorem readObject_no_fail (b : Backend) (h : b.failRead = []) (k : String) :
    b.readObject k = Except.ok (alookup b.store k) := by
  unfold Backend.readObject
  rw [h]
  simp

theorem insertEntry_lookup_self (ix : IndexFile) (entry : ProgramEntry) :
    (insertEntry ix entry).lookupEntry entry.contract entry.program_id =
      some entry := by
  unfold insertEntry IndexFile.lookupEntry
  dsimp only
  rw [alookup_ainsert_self]
  dsimp only [Option.bind]
  exact alookup_ainsert_self _ _ _

theorem insertEntry_preserves_present (ix : IndexFile) (entry : ProgramEntry)
    (c p : String) (e : ProgramEntry) (h : ix.lookupEntry c p = some e) :
    ∃ e', (insertEntry ix entry).lookupEntry c p = some e' := by
  obtain ⟨ce, hc, hp⟩ := lookupEntry_eq_some ix c p e h
  unfold insertEntry IndexFile.lookupEntry
  dsimp only
  by_cases hcc : c = entry.contract
  · subst hcc
    rw [alookup_ainsert_self]
    dsimp only [Option.bind]
    by_cases hpp : p = entry.program_id
    · subst hpp
      rw [alookup_ainsert_self]
      exact ⟨entry, rfl⟩
    · rw [alookup_ainsert_ne _ _ _ _ hpp, hc, Option.getD_some]
      exact ⟨e, hp⟩
  · rw [alookup_ainsert_ne _ _ _ _ hcc, hc]
    dsimp only [Option.bind]
    exact ⟨e, hp⟩

theorem insertEntry_lookup_sound (ix : IndexFile) (entry : ProgramEntry)
    (c p : String) (e : ProgramEntry)
    (h : (insertEntry ix entry).lookupEntry c p = some e) :
    (c = entry.contract ∧ p = entry.program_id ∧ e = entry) ∨
    ix.lookupEntry c p = some e := by
  unfold insertEntry IndexFile.lookupEntry at h
  dsimp only at h
  by_cases hcc : c = entry.contract
  · subst hcc
    rw [alookup_ainsert_self] at h
    dsimp only [Option.bind] at h
    by_cases hpp : p = entry.program_id
    · subst hpp
      rw [alookup_ainsert_self] at h
      exact Or.inl ⟨rfl, rfl, (Option.some.inj h).symm⟩
    · rw [alookup_ainsert_ne _ _ _ _ hpp] at h
      cases hx : alookup ix.contracts entry.contract with
      | none =>
          rw [hx] at h
          dsimp only [Option.getD] at h
          simp [alookup] at h
      | some ce0 =>
          rw [hx, Option.getD_some] at h
          refine Or.inr ?_
          unfold IndexFile.lookupEntry
          rw [hx]
          dsimp only [Option.bind]
          exact h
  · rw [alookup_ainsert_ne _ _ _ _ hcc] at h
    exact Or.inr h

theorem rebuildLoop_ok (b : Backend) (objs : List String) (acc : IndexFile)
    (hread : b.failRead = []) : ∃ ix, rebuildLoop b acc objs = Except.ok ix := by
  induction objs generalizing acc with
  | nil => exact ⟨acc, rfl⟩
  | cons k rest ih =>
      simp only [rebuildLoop]
      by_cases hskip : (k == INDEX_FILE_NAME || !(ends_with k ".json")) = true
      · rw [if_pos hskip]
        exact ih acc
      · rw [if_neg hskip, readObject_no_fail b hread]
        cases alookup b.store k with
        | none => exact ih acc
        | some v =>
            dsimp only
            cases parseEntry v with
            | none => exact ih acc
            | some entry => exact ih (insertEntry acc entry)

theorem rebuildLoop_mono (b : Backend) (objs : List String) (acc ix : IndexFile)
    (c p : String) (h : rebuildLoop b acc objs = Except.ok ix)
    (hpres : ∃ e, acc.lookupEntry c p = some e) :
    ∃ e', ix.lookupEntry c p = some e' := by
  induction objs generalizing acc with
  | nil =>
      obtain rfl := Except.ok.inj h
      exact hpres
  | cons k rest ih =>
      simp only [rebuildLoop] at h
      by_cases hskip : (k == INDEX_FILE_NAME || !(ends_with k ".json")) = true
      · rw [if_pos hskip] at h
        exact ih acc h hpres
      · rw [if_neg hskip] at h
        cases hro : b.readObject k with
        | error e => rw [hro] at h; cases h
        | ok ov =>
            rw [hro] at h
            cases ov with
            | none => exact ih acc h hpres
            | some v =>
                dsimp only at h
                cases hpe : parseEntry v with
                | none => rw [hpe] at h; exact ih acc h hpres
                | some entry =>
                    rw [hpe] at h
                    obtain ⟨e, hel⟩ := hpres
                    exact ih (insertEntry acc entry) h
                      (insertEntry_preserves_present acc entry c p e hel)

theorem rebuildLoop_complete (b : Backend) (objs : List String) (acc ix : IndexFile)
    (k : String) (e : ProgramEntry) (hread : b.failRead = [])
    (hk : k ∈ objs) (hki : k ≠ INDEX_FILE_NAME) (hkj : ends_with k ".json" = true)
    (hkv : alookup b.store k = some (ObjVal.entryJson e))
    (h : rebuildLoop b acc objs = Except.ok ix) :
    ∃ e', ix.lookupEntry e.contract e.program_id = some e' := by
  induction objs generalizing acc with
  | nil => cases hk
  | cons k0 rest ih =>
      simp only [rebuildLoop] at h
      rcases List.mem_cons.mp hk with rfl | hkrest
      · have hskip : ¬ ((k == INDEX_FILE_NAME || !(ends_with k ".json")) = true) := by
          simp [hki, hkj]
        rw [if_neg hskip] at h
        rw [readObject_no_fail b hread, hkv] at h
        dsimp only at h
        have hpe : parseEntry (ObjVal.entryJson e) = some e := rfl
        rw [hpe] at h
        exact rebuildLoop_mono b rest (insertEntry acc e) ix e.contract e.program_id h
          ⟨e, insertEntry_lookup_self acc e⟩
      · by_cases hskip : (k0 == INDEX_FILE_NAME || !(ends_with k0 ".json")) = true
        · rw [if_pos hskip] at h
          exact ih acc hkrest h
        · rw [if_neg hskip, readObject_no_fail b hread] at h
          cases hx : alookup b.store k0 with
          | none =>
              rw [hx] at h
              dsimp only at h
              exact ih acc hkrest h
          | some v =>
              rw [hx] at h
              dsimp only at h
              cases hpe : parseEntry v with
              | none =>
                  rw [hpe] at h
                  exact ih acc hkrest h
              | some entry =>
                  rw [hpe] at h
                  exact ih (insertEntry acc entry) hkrest h

theorem rebuildLoop_sound (b : Backend) (objs : List String) (acc ix : IndexFile)
    (c p : String) (e : ProgramEntry)
    (h : rebuildLoop b acc objs = Except.ok ix) (he : ix.lookupEntry c p = some e) :
    acc.lookupEntry c p = some e ∨
    (e.contract = c ∧ e.program_id = p ∧
      ∃ k, k ∈ objs ∧ k ≠ INDEX_FILE_NAME ∧ ends_with k ".json" = true ∧
        b.readObject k = Except.ok (some (ObjVal.entryJson e))) := by
  induction objs generalizing acc with
  | nil =>
      obtain rfl := Except.ok.inj h
      exact Or.inl he
  | cons k0 rest ih =>
      simp only [rebuildLoop] at h
      by_cases hskip : (k0 == INDEX_FILE_NAME || !(ends_with k0 ".json")) = true
      · rw [if_pos hskip] at h
        rcases ih acc h with h1 | ⟨hc, hp, k, hk, hrest⟩
        · exact Or.inl h1
        · exact Or.inr ⟨hc, hp, k, List.mem_cons_of_mem _ hk, hrest⟩
      · have hki : k0 ≠ INDEX_FILE_NAME := by
          intro hc
          apply hskip
          simp [hc]
        have hkj : ends_with k0 ".json" = true := by
          cases hx : ends_with k0 ".json" with
          | true => rfl
          | false => exact absurd (by simp [hx]) hskip
        rw [if_neg hskip] at h
        cases hro : b.readObject k0 with
        | error err => rw [hro] at h; cases h
        | ok ov =>
            rw [hro] at h
            cases ov with
            | none =>
                rcases ih acc h with h1 | ⟨hc, hp, k, hk, hrest⟩
                · exact Or.inl h1
                · exact Or.inr ⟨hc, hp, k, List.mem_cons_of_mem _ hk, hrest⟩
            | some v =>
                dsimp only at h
                cases hpe : parseEntry v with
                | none =>
                    rw [hpe] at h
                    rcases ih acc h with h1 | ⟨hc, hp, k, hk, hrest⟩
                    · exact Or.inl h1
                    · exact Or.inr ⟨hc, hp, k, List.mem_cons_of_mem _ hk, hrest⟩
                | some entry =>
                    rw [hpe] at h
                    rcases ih (insertEntry acc entry) h with h1 | ⟨hc, hp, k, hk, hrest⟩
                    · rcases insertEntry_lookup_sound acc entry c p e h1 with
                        ⟨hcc, hpp, hee⟩ | h2
                      · subst hee
                        refine Or.inr ⟨hcc.symm, hpp.symm, k0,
                          List.mem_cons_self _ _, hki, hkj, ?_⟩
                        rw [hro, parseEntry_eq_some v e hpe]
                      · exact Or.inl h2
                    · exact Or.inr ⟨hc, hp, k, List.mem_cons_of_mem _ hk, hrest⟩

/-- C6: at service construction, index bytes that fail to parse as an
`IndexFile` make construction fail with an error (a corrupt index is never
treated as empty), whereas an absent index object is not an error and takes the
rebuild path instead. -/
theorem C6_corrupt_index_fatal (b : Backend) :
    (∀ v, b.readObject INDEX_FILE_NAME = Except.ok (some v) → parseIndex v = none →
      load_or_rebuild_index b = Except.error "parsing index") ∧
    (b.readObject INDEX_FILE_NAME = Except.ok none →
      load_or_rebuild_index b = rebuildIndex b) := by
  constructor
  · intro v hv hp
    unfold load_or_rebuild_index
    rw [hv]
    dsimp only
    rw [hp]
  · intro hv
    unfold load_or_rebuild_index
    rw [hv]

/-- C2: when `read_object("index.json")` reports absence at construction, the
index is rebuilt: each listed object whose key ends in `.json` and is not the
index key itself and whose content parses as a `ProgramEntry` ends up in the
rebuilt index under its embedded contract field; objects that fail to parse are
skipped without aborting (the scan succeeds for arbitrary store contents); every
rebuilt entry comes from such an object; and the rebuilt index is written back
to the backend at `index.json` before construction returns. -/
theorem C2_absent_index_rebuilds (b : Backend)
    (hread : b.failRead = []) (hwrite : b.failWrite = [])
    (habsent : alookup b.store INDEX_FILE_NAME = none) :
    ∃ ix b', load_or_rebuild_index b = Except.ok (ix, b') ∧
      alookup b'.store INDEX_FILE_NAME = some (ObjVal.indexJson ix) ∧
      (∀ k e, k ∈ b.listObjects → k ≠ INDEX_FILE_NAME → ends_with k ".json" = true →
        alookup b.store k = some (ObjVal.entryJson e) →
        ∃ e', ix.lookupEntry e.contract e.program_id = some e') ∧
      (∀ c p e, ix.lookupEntry c p = some e →
        e.contract = c ∧ e.program_id = p ∧
        ∃ k, k ∈ b.listObjects ∧ k ≠ INDEX_FILE_NAME ∧ ends_with k ".json" = true ∧
          alookup b.store k = some (ObjVal.entryJson e)) := by
  obtain ⟨ix, hix⟩ := rebuildLoop_ok b b.listObjects (IndexFile.mk []) hread
  have hro : b.readObject INDEX_FILE_NAME = Except.ok none := by
    rw [readObject_no_fail b hread, habsent]
  have hwr : b.writeObject INDEX_FILE_NAME (ObjVal.indexJson ix) =
      Except.ok { b with store := ainsert INDEX_FILE_NAME (ObjVal.indexJson ix) b.store } := by
    unfold Backend.writeObject
    rw [hwrite]
    simp
  refine ⟨ix, { b with store := ainsert INDEX_FILE_NAME (ObjVal.indexJson ix) b.store },
    ?_, ?_, ?_, ?_⟩
  · unfold load_or_rebuild_index rebuildIndex
    rw [hro]
    dsimp only
    rw [hix]
    dsimp only
    rw [hwr]
  · exact alookup_ainsert_self _ _ _
  · intro k e hk hki hkj hkv
    exact rebuildLoop_complete b b.listObjects (IndexFile.mk []) ix k e hread hk hki
      hkj hkv hix
  · intro c p e h
    rcases rebuildLoop_sound b b.listObjects (IndexFile.mk []) ix c p e hix h with
      h1 | ⟨hc, hp, k, hk, hki, hkj, hkread⟩
    · simp [IndexFile.lookupEntry, alookup] at h1
    · rw [readObject_no_fail b hread] at hkread
      exact ⟨hc, hp, k, hk, hki, hkj, Except.ok.inj hkread⟩

theorem ne_nil_of_isEmpty_false {α : Type} (l : List α) (h : l.isEmpty = false) :
    l ≠ [] := by
  cases l with
  | nil => simp [List.isEmpty] at h
  | cons a t => exact List.cons_ne_nil a t

theorem noEmptyContracts_mk_aremove (ix : IndexFile) (c : String)
    (h : noEmptyContracts ix) :
    noEmptyContracts (IndexFile.mk (aremove c ix.contracts)) := by
  intro kv hkv
  exact h kv (mem_aremove _ _ _ hkv)

theorem noEmptyContracts_uploadIndex (s : RegistryService) (c p : String)
    (e : ProgramEntry) (h : noEmptyContracts s.index) :
    noEmptyContracts (uploadIndex s c p e) := by
  intro kv hkv
  dsimp only [uploadIndex] at hkv
  rcases mem_ainsert _ _ _ _ hkv with h1 | h1
  · subst h1
    exact ainsert_ne_nil _ _ _
  · exact h kv h1

theorem noEmptyContracts_insertEntry (ix : IndexFile) (entry : ProgramEntry)
    (h : noEmptyContracts ix) : noEmptyContracts (insertEntry ix entry) := by
  intro kv hkv
  dsimp only [insertEntry] at hkv
  rcases mem_ainsert _ _ _ _ hkv with h1 | h1
  · subst h1
    exact ainsert_ne_nil _ _ _
  · exact h kv h1

theorem noEmptyContracts_deleteIndex (ix : IndexFile) (c p : String)
    (h : noEmptyContracts ix) : noEmptyContracts (deleteIndex ix c p) := by
  unfold deleteIndex
  cases hc : alookup ix.contracts c with
  | none => exact h
  | some ce =>
      dsimp only
      by_cases hE : (aremove p ce.programs).isEmpty = true
      · rw [if_pos hE]
        intro kv hkv
        exact h kv (mem_aremove _ _ _ hkv)
      · rw [if_neg hE]
        have hE' : (aremove p ce.programs).isEmpty = false := by
          cases hx : (aremove p ce.programs).isEmpty with
          | false => rfl
          | true => exact absurd hx hE
        intro kv hkv
        rcases mem_ainsert _ _ _ _ hkv with h1 | h1
        · subst h1
          exact ne_nil_of_isEmpty_false _ hE'
        · exact h kv h1

theorem rebuildLoop_noEmpty (b : Backend) (objs : List String) (acc ix : IndexFile)
    (h : rebuildLoop b acc objs = Except.ok ix) (hacc : noEmptyContracts acc) :
    noEmptyContracts ix := by
  induction objs generalizing acc with
  | nil =>
      obtain rfl := Except.ok.inj h
      exact hacc
  | cons k0 rest ih =>
      simp only [rebuildLoop] at h
      by_cases hskip : (k0 == INDEX_FILE_NAME || !(ends_with k0 ".json")) = true
      · rw [if_pos hskip] at h
        exact ih acc h hacc
      · rw [if_neg hskip] at h
        cases hro : b.readObject k0 with
        | error err => rw [hro] at h; cases h
        | ok ov =>
            rw [hro] at h
            cases ov with
            | none => exact ih acc h hacc
            | some v =>
                dsimp only at h
                cases hpe : parseEntry v with
                | none =>
                    rw [hpe] at h
                    exact ih acc h hacc
                | some entry =>
                    rw [hpe] at h
                    exact ih (insertEntry acc entry) h
                      (noEmptyContracts_insertEntry acc entry hacc)

theorem upload_index_cases (s : RegistryService) (c p : String) (md : ProgramMetadata)
    (bytes : Bytes) (ts : String) :
    (s.upload c p md bytes ts).1.index = s.index ∨
    (s.upload c p md bytes ts).1.index =
      uploadIndex s c p (uploadEntry c p md bytes ts) := by
  unfold RegistryService.upload
  dsimp only
  split
  · exact Or.inl rfl
  · split
    · exact Or.inl rfl
    · split
      · exact Or.inr rfl
      · exact Or.inr rfl

theorem delete_program_index_cases (s : RegistryService) (c p : String) :
    (s.delete_program c p).1.index = s.index ∨
    (s.delete_program c p).1.index = deleteIndex s.index c p := by
  unfold RegistryService.delete_program
  dsimp only
  split
  · exact Or.inl rfl
  · split
    · exact Or.inl rfl
    · split
      · exact Or.inl rfl
      · split
        · exact Or.inr rfl
        · exact Or.inr rfl

theorem delete_contract_index_cases (s : RegistryService) (c : String) :
    (s.delete_contract c).1.index = s.index ∨
    (s.delete_contract c).1.index = IndexFile.mk (aremove c s.index.contracts) := by
  unfold RegistryService.delete_contract
  dsimp only
  split
  · exact Or.inl rfl
  · split
    · exact Or.inl rfl
    · split
      · exact Or.inr rfl
      · exact Or.inr rfl

/-- C9 counterexample: construction over `c9Backend` succeeds by loading the
stored index verbatim, and the resulting in-memory index maps contract `"c"` to
an empty program map — the load path performs no pruning, so the claim fails for
construction by load. -/
theorem C9_counterexample_load_keeps_empty_contract :
    load_or_rebuild_index c9Backend = Except.ok (c9EmptyContract, c9Backend) ∧
    alookup c9EmptyContract.contracts "c" = some (ContractIndex.mk []) ∧
    (ContractIndex.mk ([] : List (String × ProgramEntry))).programs = [] := by
  refine ⟨?_, ?_, rfl⟩ <;> rfl

/-- C9 (amended): provided that a stored `index.json`, when the service loads
one, itself maps no contract to an empty program map — which holds for every
index this service persists — the in-memory index never maps a contract name to
an empty program map: after construction (load under that proviso, rebuild
unconditionally) and after every `upload`, `delete_program` and
`delete_contract`. -/
theorem C9_amended_no_empty_contracts :
    (∀ (b : Backend) (ix : IndexFile) (b' : Backend),
      load_or_rebuild_index b = Except.ok (ix, b') →
      (∀ ix0, alookup b.store INDEX_FILE_NAME = some (ObjVal.indexJson ix0) →
        noEmptyContracts ix0) →
      noEmptyContracts ix) ∧
    (∀ (s : RegistryService) (c p : String) (md : ProgramMetadata) (bytes : Bytes)
      (ts : String), noEmptyContracts s.index →
      noEmptyContracts (s.upload c p md bytes ts).1.index) ∧
    (∀ (s : RegistryService) (c p : String), noEmptyContracts s.index →
      noEmptyContracts (s.delete_program c p).1.index) ∧
    (∀ (s : RegistryService) (c : String), noEmptyContracts s.index →
      noEmptyContracts (s.delete_contract c).1.index) := by
  refine ⟨?_, ?_, ?_, ?_⟩
  · intro b ix b' h hstored
    unfold load_or_rebuild_index Backend.readObject at h
    by_cases hfr : INDEX_FILE_NAME ∈ b.failRead
    · rw [if_pos hfr] at h
      dsimp only at h
      cases h
    · rw [if_neg hfr] at h
      cases hsv : alookup b.store INDEX_FILE_NAME with
      | some v =>
          rw [hsv] at h
          dsimp only at h
          cases hpi : parseIndex v with
          | none =>
              rw [hpi] at h
              cases h
          | some ix0 =>
              rw [hpi] at h
              have hpair := Except.ok.inj h
              have hix : ix0 = ix := congrArg Prod.fst hpair
              have hv := parseIndex_eq_some v ix0 hpi
              subst hv
              rw [← hix]
              exact hstored ix0 hsv
      | none =>
          rw [hsv] at h
          dsimp only at h
          unfold rebuildIndex at h
          cases hrl : rebuildLoop b (IndexFile.mk []) b.listObjects with
          | error e =>
              rw [hrl] at h
              cases h
          | ok ixr =>
              rw [hrl] at h
              dsimp only at h
              cases hwo : b.writeObject INDEX_FILE_NAME (ObjVal.indexJson ixr) with
              | error e =>
                  rw [hwo] at h
                  cases h
              | ok b2 =>
                  rw [hwo] at h
                  dsimp only at h
                  have hpair := Except.ok.inj h
                  have hixr : ixr = ix := congrArg Prod.fst hpair
                  rw [← hixr]
                  exact rebuildLoop_noEmpty b b.listObjects (IndexFile.mk []) ixr hrl
                    (fun kv hkv => absurd hkv (List.not_mem_nil kv))
  · intro s c p md bytes ts h
    rcases upload_index_cases s c p md bytes ts with hc | hc
    · rw [hc]
      exact h
    · rw [hc]
      exact noEmptyContracts_uploadIndex s c p _ h
  · intro s c p h
    rcases delete_program_index_cases s c p with hc | hc
    · rw [hc]
      exact h
    · rw [hc]
      exact noEmptyContracts_deleteIndex s.index c p h
  · intro s c h
    rcases delete_contract_index_cases s c with hc | hc
    · rw [hc]
      exact h
    · rw [hc]
      exact noEmptyContracts_mk_aremove s.index c h

/-- C3: for both backend variants (cloud bucket and local filesystem),
`delete_object(key)` removes the object when it exists, and deleting a key with
no object succeeds rather than erroring (idempotent delete) and leaves the
state unchanged. -/
theorem C3_delete_object_idempotent :
    (∀ (g : GcsStorageBackend) (path : String),
      (g.delete_object path).1 = Except.ok () ∧
      alookup ((g.delete_object path).2).bucket (g.gcs_object_path path) = none ∧
      ((g.delete_object path).2).pfx = g.pfx ∧
      (alookup g.bucket (g.gcs_object_path path) = none →
        (g.delete_object path).2 = g)) ∧
    (∀ (fs : List (String × Bytes)) (path : String),
      (LocalStorageBackend.delete_object fs path).1 = Except.ok () ∧
      alookup (LocalStorageBackend.delete_object fs path).2 path = none ∧
      (alookup fs path = none →
        (LocalStorageBackend.delete_object fs path).2 = fs)) := by
  constructor
  · intro g path
    cases hl : alookup g.bucket (g.gcs_object_path path) with
    | some v =>
        have hcd : gcsClientDeleteObject g.bucket (g.gcs_object_path path) =
            (Except.ok (), aremove (g.gcs_object_path path) g.bucket) := by
          unfold gcsClientDeleteObject
          rw [hl]
        unfold GcsStorageBackend.delete_object
        dsimp only
        rw [hcd]
        dsimp only
        exact ⟨rfl, alookup_aremove_self _ _, rfl, fun hnone => by cases hnone⟩
    | none =>
        have hcd : gcsClientDeleteObject g.bucket (g.gcs_object_path path) =
            (Except.error (GcsError.response 404), g.bucket) := by
          unfold gcsClientDeleteObject
          rw [hl]
        have h404 : gcs_is_not_found (GcsError.response 404) = true := by decide
        unfold GcsStorageBackend.delete_object
        dsimp only
        rw [hcd]
        dsimp only
        rw [h404, if_pos rfl]
        exact ⟨rfl, hl, rfl, fun _ => rfl⟩
  · intro fs path
    cases hl : alookup fs path with
    | some v =>
        have hcd : fsRemoveFile fs path = (Except.ok (), aremove path fs) := by
          unfold fsRemoveFile
          rw [hl]
        unfold LocalStorageBackend.delete_object
        rw [hcd]
        dsimp only
        exact ⟨rfl, alookup_aremove_self _ _, fun hnone => by cases hnone⟩
    | none =>
        have hcd : fsRemoveFile fs path = (Except.error IoError.notFound, fs) := by
          unfold fsRemoveFile
          rw [hl]
        unfold LocalStorageBackend.delete_object
        rw [hcd]
        dsimp only
        exact ⟨rfl, hl, fun _ => rfl⟩

theorem C1_witness :
    wE1.size_bytes = [1, 2, 3].length ∧
    (wS1.download "orders" "program-a").2 = Except.ok (some (ObjVal.raw [1, 2, 3])) :=
  C1_upload_then_download wService wS1 "orders" "program-a" wMeta [1, 2, 3] "t1" wE1
    (by decide)

theorem C5_witness :
    (wE2.object_path = wE1.object_path ∧ wE2.metadata_path = wE1.metadata_path) ∧
    alookup wS2.storage.store wE2.object_path = some (ObjVal.raw [9, 9]) ∧
    alookup wS2.storage.store wE2.metadata_path = some (ObjVal.entryJson wE2) ∧
    wE2.metadata = wMeta2 ∧ wE2.size_bytes = [9, 9].length ∧
    wS2.index.lookupEntry "orders" "program-a" = some wE2 ∧
    (wS2.download "orders" "program-a").2 = Except.ok (some (ObjVal.raw [9, 9])) :=
  C5_reupload_replaces_content wService wS1 wS2 "orders" "program-a" wMeta wMeta2
    [1, 2, 3] [9, 9] "t1" "t2" wE1 wE2 (by decide) (by decide)

theorem C7_witness :
    (∀ (cache : BinaryCache) (c' p' : String) (v' : ObjVal) (es : List CacheEntry),
      alookup (cache.insert c' p' v').per_contract c' = some es → es.length ≤ 2) ∧
    (w7S3.cache.get_and_touch "orders" "p1").1 = none ∧
    (w7S3.cache.get_and_touch "orders" "p2").1 = some (ObjVal.raw [2]) ∧
    (w7S3.cache.get_and_touch "orders" "p3").1 = some (ObjVal.raw [3]) :=
  C7_cache_bound_and_eviction wService w7S1 w7S2 w7S3 "orders" "p1" "p2" "p3"
    wMeta wMeta wMeta [1] [2] [3] "t1" "t2" "t3"
    (uploadEntry "orders" "p1" wMeta [1] "t1")
    (uploadEntry "orders" "p2" wMeta [2] "t2")
    (uploadEntry "orders" "p3" wMeta [3] "t3")
    (by decide) (by decide) (by decide) (by decide) (by decide) (by decide)

theorem C10_witness :
    (wFailService.upload "orders" "program-a" wMeta [1] "t").2 =
      Except.error INDEX_FILE_NAME ∧
    (wFailService.upload "orders" "program-a" wMeta [1] "t").1.index.lookupEntry
      "orders" "program-a" = some (uploadEntry "orders" "program-a" wMeta [1] "t") ∧
    (wFailService.upload "orders" "program-a" wMeta [1] "t").1.cache =
      wFailService.cache :=
  C10_failed_index_write_leaves_entry wFailService "orders" "program-a" wMeta [1]
    "t" rfl

theorem C4_witness :
    (wS1.delete_program "orders" "program-a").2 = Except.ok true ∧
    (wS1.delete_program "orders" "program-a").1.storage.readObject wE1.object_path =
      Except.ok none ∧
    (wS1.delete_program "orders" "program-a").1.storage.readObject wE1.metadata_path =
      Except.ok none ∧
    (wS1.delete_program "orders" "program-a").1.index.lookupEntry "orders"
      "program-a" = none ∧
    ((aremove "program-a" (ContractIndex.mk [("program-a", wE1)]).programs).isEmpty =
        true →
      alookup (wS1.delete_program "orders" "program-a").1.index.contracts "orders" =
        none) ∧
    ((aremove "program-a" (ContractIndex.mk [("program-a", wE1)]).programs).isEmpty =
        false →
      alookup (wS1.delete_program "orders" "program-a").1.index.contracts "orders" =
        some (ContractIndex.mk
          (aremove "program-a" (ContractIndex.mk [("program-a", wE1)]).programs))) ∧
    alookup (wS1.delete_program "orders" "program-a").1.storage.store INDEX_FILE_NAME =
      some (ObjVal.indexJson ((wS1.delete_program "orders" "program-a").1.index)) ∧
    ((wS1.delete_program "orders" "program-a").1.cache.get_and_touch "orders"
      "program-a").1 = none :=
  (C4_delete_program_outcomes wS1 "orders" "program-a").2 wE1
    (ContractIndex.mk [("program-a", wE1)]) (by decide) (by decide) rfl rfl
    (by decide) (by decide) (by decide) rfl

theorem C8_witness :
    w8Service.download "orders" "p" = (w8Service, Except.ok none) ∧
    wService.download "orders" "p" = (wService, Except.ok none) :=
  ⟨(C8_download_not_found w8Service "orders" "p" (by decide)).2 wE1 (by decide)
      (by decide),
   (C8_download_not_found wService "orders" "p" (by decide)).1 (by decide)⟩

theorem C2_witness :
    ∃ ix b', load_or_rebuild_index w2Backend = Except.ok (ix, b') ∧
      alookup b'.store INDEX_FILE_NAME = some (ObjVal.indexJson ix) ∧
      (∀ k e, k ∈ w2Backend.listObjects → k ≠ INDEX_FILE_NAME →
        ends_with k ".json" = true →
        alookup w2Backend.store k = some (ObjVal.entryJson e) →
        ∃ e', ix.lookupEntry e.contract e.program_id = some e') ∧
      (∀ c p e, ix.lookupEntry c p = some e →
        e.contract = c ∧ e.program_id = p ∧
        ∃ k, k ∈ w2Backend.listObjects ∧ k ≠ INDEX_FILE_NAME ∧
          ends_with k ".json" = true ∧
          alookup w2Backend.store k = some (ObjVal.entryJson e)) :=
  C2_absent_index_rebuilds w2Backend rfl rfl (by decide)

theorem C6_witness :
    load_or_rebuild_index w6Corrupt = Except.error "parsing index" ∧
    load_or_rebuild_index wBackend = rebuildIndex wBackend :=
  ⟨(C6_corrupt_index_fatal w6Corrupt).1 (ObjVal.raw [1]) (by decide) rfl,
   (C6_corrupt_index_fatal wBackend).2 (by decide)⟩

theorem C9_amended_witness :
    noEmptyContracts (wService.upload "orders" "program-a" wMeta [1] "tw").1.index :=
  C9_amended_no_empty_contracts.2.1 wService "orders" "program-a" wMeta [1] "tw"
    (fun kv hkv => absurd hkv (List.not_mem_nil kv))

theorem C3_witness :
    ((GcsStorageBackend.mk [] none).delete_object "k").1 = Except.ok () ∧
    (LocalStorageBackend.delete_object [] "k").1 = Except.ok () :=
  ⟨(C3_delete_object_idempotent.1 (GcsStorageBackend.mk [] none) "k").1,
   (C3_delete_object_idempotent.2 [] "k").1⟩

end HyliRegistry
